import Mathlib

/-!
Verification of the construction-order Gantt chart core:
the calendar-grid / range-clipping engine (`utils/dates.py`) and the
undo/redo state machine (`utils/state.py`), shallowly embedded in Lean.
DataFrames are modelled as a column list plus rows of (column, value)
association lists; pandas timestamps normalised to dates are modelled as
(year, month, day) triples ordered lexicographically; the Streamlit
session dictionary is modelled as an explicit `AppState` record, and
`st.warning` as appending to a warnings log.
-/

namespace Gantt

/-- A calendar date: a pandas `Timestamp(year, month, day)` normalised to
midnight, as produced by `to_timestamp` in `dates.py`. -/
structure Date where
  y : Nat
  m : Nat
  d : Nat
deriving DecidableEq, Repr

/-- Strict order on normalised timestamps (lexicographic on year, month,
day), the order pandas `Timestamp` comparisons use in `dates.py`. -/
def dateLt (a b : Date) : Prop :=
  a.y < b.y ∨ (a.y = b.y ∧ (a.m < b.m ∨ (a.m = b.m ∧ a.d < b.d)))

/-- Non-strict order on normalised timestamps. -/
def dateLe (a b : Date) : Prop :=
  a.y < b.y ∨ (a.y = b.y ∧ (a.m < b.m ∨ (a.m = b.m ∧ a.d ≤ b.d)))

instance (a b : Date) : Decidable (dateLt a b) :=
  inferInstanceAs (Decidable (_ ∨ _))

instance (a b : Date) : Decidable (dateLe a b) :=
  inferInstanceAs (Decidable (_ ∨ _))

/-- Gregorian leap-year rule (pandas calendar arithmetic). -/
def isLeap (y : Nat) : Bool :=
  (y % 4 == 0 && y % 100 != 0) || y % 400 == 0

/-- Number of days of month `m` of year `y` (the day-of-month of
`month_end` in `dates.py`). -/
def daysInMonth (y m : Nat) : Nat :=
  if m = 2 then (if isLeap y then 29 else 28)
  else if m = 4 ∨ m = 6 ∨ m = 9 ∨ m = 11 then 30
  else 31

/-- Linear month index: months of year `y` get indices `12*y` .. `12*y+11`. -/
def monthIdx (a : Date) : Nat := a.y * 12 + (a.m - 1)

/-- Inverse of `monthIdx`: the (year, month) pair of a linear month index. -/
def idxToMonth (k : Nat) : Nat × Nat := (k / 12, k % 12 + 1)

/-- `month_start` from `dates.py`: first calendar day of the value's month. -/
def month_start (a : Date) : Date := ⟨a.y, a.m, 1⟩

/-- `month_end` from `dates.py`: last calendar day of the value's month. -/
def month_end (a : Date) : Date := ⟨a.y, a.m, daysInMonth a.y a.m⟩

/-- The while-loop of `iter_months`: `n` successive months starting at
linear month index `k`. -/
def monthsFrom : Nat → Nat → List (Nat × Nat)
  | _, 0 => []
  | k, n + 1 => idxToMonth k :: monthsFrom (k + 1) n

/-- `iter_months` from `dates.py`: first day of every month from
`month_start start` through `month_start end` inclusive (as (year, month)
pairs; each yielded timestamp has day 1). -/
def iter_months (s e : Date) : List (Nat × Nat) :=
  monthsFrom (monthIdx s) (monthIdx e + 1 - monthIdx s)

/-- Python `max(a, b)`: returns `b` exactly when `b > a`. -/
def dateMax (a b : Date) : Date := if dateLt a b then b else a

/-- Python `min(a, b)`: returns `b` exactly when `b < a`. -/
def dateMin (a b : Date) : Date := if dateLt b a then b else a

/-- `make_month_spans` from `dates.py`: for each month of `iter_months`,
the pair `(max(start, first), min(end, last))`. -/
def make_month_spans (s e : Date) : List (Date × Date) :=
  (iter_months s e).map (fun ym =>
    let first : Date := ⟨ym.1, ym.2, 1⟩
    let last : Date := ⟨ym.1, ym.2, daysInMonth ym.1 ym.2⟩
    (dateMax s first, dateMin e last))

/-- A label position: a point on the time axis inside month
(`y`, `m`), at day-of-month `halfDays / 2` — measured in half days
because pandas timedelta division by two can land on a half day, and
half-day resolution represents `(last - first) / 2` exactly. -/
structure LabelPos where
  y : Nat
  m : Nat
  halfDays : Nat
deriving DecidableEq, Repr

/-- The f-string `"{year}年{month}月"` of `make_month_labels`. -/
def labelText (y m : Nat) : String :=
  toString y ++ "年" ++ toString m ++ "月"

/-- `make_month_labels` from `dates.py`: for each month of `iter_months`,
position `first + (last - first)/2` (midpoint of the **full** month:
day 1 plus `(dim - 1)/2` days, i.e. `dim + 1` half days) and text
`"{year}年{month}月"`. -/
def make_month_labels (s e : Date) : List (LabelPos × String) :=
  (iter_months s e).map (fun ym =>
    let dim := daysInMonth ym.1 ym.2
    (⟨ym.1, ym.2, 2 * 1 + (2 * dim - 2 * 1) / 2⟩, labelText ym.1 ym.2))

/-- Modelled from the spec: the temporal midpoint
`spanStart + (spanEnd - spanStart)/2` of a span lying inside one month
(in half days: `2*spanStart + (2*spanEnd - 2*spanStart)/2`, which is
`spanStart.d + spanEnd.d` half days), with the month's label text. -/
def spanMidLabel (sp : Date × Date) : LabelPos × String :=
  (⟨sp.1.y, sp.1.m, 2 * sp.1.d + (2 * sp.2.d - 2 * sp.1.d) / 2⟩,
    labelText sp.1.y sp.1.m)

/-- Modelled from the spec (`monthLabels`): one label per month touching
the window, positioned at the temporal midpoint of that month's span as
given by `monthSpans` (first/last spans truncated to the window). -/
def monthLabelsSpecTrunc (s e : Date) : List (LabelPos × String) :=
  (make_month_spans s e).map spanMidLabel

/-- Amended spec for `monthLabels`: one label per month touching the
window, positioned at the temporal midpoint of the full month span
`[month_start, month_end]`, ignoring window truncation. -/
def monthLabelsSpecFull (s e : Date) : List (LabelPos × String) :=
  (iter_months s e).map (fun ym =>
    spanMidLabel (⟨ym.1, ym.2, 1⟩, ⟨ym.1, ym.2, daysInMonth ym.1 ym.2⟩))

/-- The body of the inner `for day in (6, 12, 18, 24, last.day)` loop of
`make_tickvals`: skip a day past the month end (`continue`), keep the
tick only when inside `[start, end]`, and skip a tick equal to the
previously emitted one (`tickvals[-1]`). -/
def tickCand (s e : Date) (dim : Nat) (ym : Nat × Nat) (acc : List Date)
    (day : Nat) : List Date :=
  if day > dim then acc
  else
    let tick : Date := ⟨ym.1, ym.2, day⟩
    if dateLe s tick ∧ dateLe tick e then
      (if acc ≠ [] ∧ acc.getLast? = some tick then acc else acc ++ [tick])
    else acc

/-- One month of the `make_tickvals` loop: days 6/12/18/24/last. -/
def tickMonth (s e : Date) (acc : List Date) (ym : Nat × Nat) : List Date :=
  let dim := daysInMonth ym.1 ym.2
  [6, 12, 18, 24, dim].foldl (tickCand s e dim ym) acc

/-- `make_tickvals` from `dates.py`: per month of `iter_months`, ticks on
days 6/12/18/24/last, skipping a day past the month end, keeping ticks
inside `[start, end]`, dropping a tick equal to the previous one. -/
def make_tickvals (s e : Date) : List Date :=
  (iter_months s e).foldl (tickMonth s e) []

/-- `validate_range` from `dates.py`: error when `end < start`, else the
pair unchanged. -/
def validate_range (s e : Date) : Except String (Date × Date) :=
  if dateLt e s then .error "終了日は開始日以上である必要があります"
  else .ok (s, e)

/-- `clip_to_range` from `dates.py`: validate the segment range, return
`none` when the segment misses the view window, else the intersection. -/
def clip_to_range (s e vs ve : Date) : Except String (Option (Date × Date)) :=
  match validate_range s e with
  | .error msg => .error msg
  | .ok se =>
      if dateLt se.2 vs ∨ dateLt ve se.1 then .ok none
      else .ok (some (dateMax se.1 vs, dateMin se.2 ve))

/-- A pandas DataFrame, as used by `state.py`: a list of column names and
rows given as (column, value) association lists (cell values collapsed to
strings).  `copy(deep=True)` is the identity on this pure value model. -/
structure DataFrame where
  columns : List String
  rows : List (List (String × String))
deriving DecidableEq, Repr

/-- The dictionary returned by `_snapshot` (`state.py` lines 42-46): deep
copies of the projects and segments frames. -/
structure Snapshot where
  projects : DataFrame
  segments : DataFrame
deriving DecidableEq, Repr

/-- `st.session_state` as touched by `state.py`: the two data frames, the
`history` (undo) and `future` (redo) snapshot stacks, the `settings`
dictionary, the `selected_projects` set, plus a log of `st.warning`
messages. -/
structure AppState where
  projects_df : DataFrame
  segments_df : DataFrame
  history : List Snapshot
  future : List Snapshot
  settings : List (String × String)
  selected_projects : List String
  warnings : List String
deriving DecidableEq, Repr

/-- `MAX_HISTORY` from `state.py`. -/
def MAX_HISTORY : Nat := 20

/-- `_snapshot` from `state.py`: deep copies of the current projects and
segments frames (and nothing else). -/
def _snapshot (s : AppState) : Snapshot :=
  ⟨s.projects_df, s.segments_df⟩

/-- `push_history` from `state.py`: append a snapshot of the current
state to `history`, evict index 0 when the length exceeds `MAX_HISTORY`,
and reset `future` to the empty list. -/
def push_history (s : AppState) : AppState :=
  let history := s.history ++ [_snapshot s]
  let history := if history.length > MAX_HISTORY then history.tail else history
  { s with history := history, future := [] }

/-- `replace_data` from `state.py`: optionally push history, then install
deep copies of the given frames. -/
def replace_data (p q : DataFrame) (push : Bool) (s : AppState) : AppState :=
  let s := if push then push_history s else s
  { s with projects_df := p, segments_df := q }

/-- `row[k]` lookup: value of the cell of column `k`. -/
def getCell (row : List (String × String)) (k : String) : Option String :=
  (row.find? (fun kv => kv.1 == k)).map (fun kv => kv.2)

/-- Assign value `v` to the cell of column `k` of one row. -/
def setCell (row : List (String × String)) (k v : String) :
    List (String × String) :=
  row.map (fun kv => if kv.1 == k then (kv.1, v) else kv)

/-- The update loop shared by `update_project` / `update_segment`: the
boolean `mask` is computed once from the original frame; each `(key,
value)` pair whose key is not among the columns is skipped (`continue`);
a kept pair writes `value` into column `key` of every masked row
(`df.loc[mask, key] = value`). -/
def applyUpdatesMasked (df : DataFrame) (mask : List Bool)
    (updates : List (String × String)) : DataFrame :=
  updates.foldl
    (fun acc kv =>
      if acc.columns.contains kv.1 then
        { acc with
          rows := (acc.rows.zip mask).map
            (fun rb => if rb.2 then setCell rb.1 kv.1 kv.2 else rb.1) }
      else acc)
    df

/-- `update_project` from `state.py`: optionally push history, then apply
the masked update loop to the projects frame with mask
`projects_df["id"] == project_id`. -/
def update_project (pid : String) (updates : List (String × String))
    (push : Bool) (s : AppState) : AppState :=
  let s := if push then push_history s else s
  let df := s.projects_df
  let mask := df.rows.map (fun r => getCell r "id" == some pid)
  { s with projects_df := applyUpdatesMasked df mask updates }

/-- `update_segment` from `state.py`: optionally push history, then apply
the masked update loop to the segments frame with mask
`segments_df["segment_id"] == segment_id`. -/
def update_segment (sid : String) (updates : List (String × String))
    (push : Bool) (s : AppState) : AppState :=
  let s := if push then push_history s else s
  let df := s.segments_df
  let mask := df.rows.map (fun r => getCell r "segment_id" == some sid)
  { s with segments_df := applyUpdatesMasked df mask updates }

/-- `undo` from `state.py`: with empty `history`, warn and change
nothing; else pop the last snapshot, append a snapshot of the current
(pre-restore) state to `future`, and restore the popped frames. -/
def undo (s : AppState) : AppState :=
  match s.history.getLast? with
  | none => { s with warnings := s.warnings ++ ["元に戻す履歴がありません"] }
  | some snap =>
      { s with
        projects_df := snap.projects
        segments_df := snap.segments
        history := s.history.dropLast
        future := s.future ++ [_snapshot s] }

/-- `redo` from `state.py`: with empty `future`, warn and change nothing;
else pop the last snapshot, call `push_history` (which records the
current state and clears `future`), restore the popped frames, and
finally write the popped remainder of `future` back into the session. -/
def redo (s : AppState) : AppState :=
  match s.future.getLast? with
  | none => { s with warnings := s.warnings ++ ["やり直しできる履歴がありません"] }
  | some snap =>
      let rest := s.future.dropLast
      let s1 := push_history s
      { s1 with
        projects_df := snap.projects
        segments_df := snap.segments
        future := rest }

/-- One push with given current frames: models a `pushHistory()` call
made while the DataStore holds the frames `pq`. -/
def pushWith (t : AppState) (pq : DataFrame × DataFrame) : AppState :=
  push_history { t with projects_df := pq.1, segments_df := pq.2 }

/-- A sequence of `pushHistory()` calls, the DataStore holding the listed
frames at the successive calls. -/
def pushSeq (ds : List (DataFrame × DataFrame)) (s : AppState) : AppState :=
  ds.foldl pushWith s

/-- The last `n` elements of a list. -/
def lastN (n : Nat) (l : List α) : List α := l.drop (l.length - n)

theorem dateLe_refl (a : Date) : dateLe a a := by
  simp [dateLe]

theorem dateLe_trans {a b c : Date} (h1 : dateLe a b) (h2 : dateLe b c) :
    dateLe a c := by
  simp only [dateLe] at h1 h2 ⊢
  omega

theorem dateLe_of_lt {a b : Date} (h : dateLt a b) : dateLe a b := by
  simp only [dateLt, dateLe] at h ⊢
  omega

theorem dateLt_of_le_of_lt {a b c : Date} (h1 : dateLe a b) (h2 : dateLt b c) :
    dateLt a c := by
  simp only [dateLt, dateLe] at h1 h2 ⊢
  omega

theorem dateLt_of_le_of_ne {a b : Date} (h1 : dateLe a b) (h2 : a ≠ b) :
    dateLt a b := by
  cases a with
  | mk ay am ad =>
    cases b with
    | mk by' bm bd =>
      simp only [dateLt, dateLe] at h1 ⊢
      simp only [ne_eq, Date.mk.injEq, not_and] at h2
      by_contra hc
      simp only [not_or, not_and, not_lt] at hc
      omega

theorem not_dateLt_iff {a b : Date} : ¬ dateLt a b ↔ dateLe b a := by
  simp only [dateLt, dateLe]
  omega

theorem dateLe_max_left (a b : Date) : dateLe a (dateMax a b) := by
  unfold dateMax
  split
  next h => exact dateLe_of_lt h
  next h => exact dateLe_refl a

theorem dateLe_max_right (a b : Date) : dateLe b (dateMax a b) := by
  unfold dateMax
  split
  next h => exact dateLe_refl b
  next h => exact not_dateLt_iff.mp h

theorem dateMin_le_left (a b : Date) : dateLe (dateMin a b) a := by
  unfold dateMin
  split
  next h => exact dateLe_of_lt h
  next h => exact dateLe_refl a

theorem dateMin_le_right (a b : Date) : dateLe (dateMin a b) b := by
  unfold dateMin
  split
  next h => exact dateLe_refl b
  next h => exact not_dateLt_iff.mp h

theorem dateMax_le {a b c : Date} (h1 : dateLe a c) (h2 : dateLe b c) :
    dateLe (dateMax a b) c := by
  unfold dateMax
  split <;> assumption

theorem dateLe_min {a b c : Date} (h1 : dateLe c a) (h2 : dateLe c b) :
    dateLe c (dateMin a b) := by
  unfold dateMin
  split <;> assumption

/-- After `push_history`, the top of the undo stack is always the
snapshot just taken, eviction notwithstanding. -/
theorem push_history_getLast (s : AppState) :
    (push_history s).history.getLast? = some (_snapshot s) := by
  unfold push_history
  dsimp only
  split
  next hl =>
    cases h : s.history with
    | nil => rw [h] at hl; simp [MAX_HISTORY] at hl
    | cons y t =>
      simp only [List.cons_append, List.tail_cons]
      exact List.getLast?_concat t
  next => exact List.getLast?_concat s.history

/-- `push_history` does not touch the data frames, the settings, the
selection or the warnings, and clears `future`. -/
theorem push_history_frame (s : AppState) :
    (push_history s).projects_df = s.projects_df ∧
    (push_history s).segments_df = s.segments_df ∧
    (push_history s).settings = s.settings ∧
    (push_history s).selected_projects = s.selected_projects ∧
    (push_history s).warnings = s.warnings ∧
    (push_history s).future = [] := by
  unfold push_history
  exact ⟨rfl, rfl, rfl, rfl, rfl, rfl⟩

/-- `redo` on an empty redo stack only logs the warning. -/
theorem redo_empty (s : AppState) (h : s.future = []) :
    redo s = { s with warnings := s.warnings ++ ["やり直しできる履歴がありません"] } := by
  unfold redo
  rw [h]
  rfl

/-- C2: for every dataset state, after `pushHistory()` then `undo()` the
DataStore (projects and segments frames) equals the pre-push state, and
after that `undo()` a `redo()` restores the DataStore to the state it had
immediately before the undo. -/
theorem C2_push_undo_redo_roundtrip (s : AppState) :
    (undo (push_history s)).projects_df = s.projects_df ∧
    (undo (push_history s)).segments_df = s.segments_df ∧
    (redo (undo (push_history s))).projects_df = (push_history s).projects_df ∧
    (redo (undo (push_history s))).segments_df = (push_history s).segments_df := by
  have hl := push_history_getLast s
  have hu : undo (push_history s) =
      { push_history s with
        projects_df := (_snapshot s).projects
        segments_df := (_snapshot s).segments
        history := (push_history s).history.dropLast
        future := (push_history s).future ++ [_snapshot (push_history s)] } := by
    unfold undo
    rw [hl]
  have hg : (undo (push_history s)).future.getLast? = some (_snapshot s) := by
    rw [hu]
    rfl
  have hr3 : (redo (undo (push_history s))).projects_df = (_snapshot s).projects := by
    unfold redo
    rw [hg]
  have hr4 : (redo (undo (push_history s))).segments_df = (_snapshot s).segments := by
    unfold redo
    rw [hg]
  refine ⟨?_, ?_, ?_, ?_⟩
  · rw [hu]; rfl
  · rw [hu]; rfl
  · rw [hr3]; rfl
  · rw [hr4]; rfl

/-- C10: `undo()` and `redo()` leave the settings dictionary and the
selectedProjects set unchanged in every state — snapshots carry only the
projects and segments frames, so only those and the two stacks move. -/
theorem C10_undo_redo_preserve_settings_selection (s : AppState) :
    (undo s).settings = s.settings ∧
    (undo s).selected_projects = s.selected_projects ∧
    (redo s).settings = s.settings ∧
    (redo s).selected_projects = s.selected_projects := by
  refine ⟨?_, ?_, ?_, ?_⟩
  · unfold undo; split <;> rfl
  · unfold undo; split <;> rfl
  · unfold redo; split <;> rfl
  · unfold redo; split <;> rfl

/-- C1 (amended): with a non-empty redo stack, `redo()` pops the last
snapshot `S` (before calling `pushHistory()`), pushes the pre-redo state
onto the undo stack, restores the DataStore to `S`, and finally writes
the popped remainder back, so the redo stack afterwards holds the
original snapshots minus `S` (not the empty stack `pushHistory` left);
with an empty redo stack it reports the warning and changes nothing. -/
theorem C1_redo_semantics :
    (∀ (s : AppState) (S : Snapshot), s.future.getLast? = some S →
      (redo s).projects_df = S.projects ∧
      (redo s).segments_df = S.segments ∧
      (redo s).history.getLast? = some (_snapshot s) ∧
      (redo s).future = s.future.dropLast ∧
      (redo s).settings = s.settings ∧
      (redo s).selected_projects = s.selected_projects) ∧
    (∀ s : AppState, s.future = [] →
      redo s = { s with warnings := s.warnings ++ ["やり直しできる履歴がありません"] }) := by
  constructor
  · intro s S hS
    unfold redo
    rw [hS]
    exact ⟨rfl, rfl, push_history_getLast s, rfl, rfl, rfl⟩
  · exact redo_empty

/-- C1 witness: a concrete redo with two queued snapshots restores the
top snapshot's projects frame, and a concrete redo on an empty stack
only logs the warning. -/
theorem C1_redo_semantics_witness :
    (redo (AppState.mk ⟨["id"], []⟩ ⟨["segment_id"], []⟩ []
        [Snapshot.mk ⟨["id"], [[("id", "p1")]]⟩ ⟨["segment_id"], []⟩,
         Snapshot.mk ⟨["id"], [[("id", "p2")]]⟩ ⟨["segment_id"], []⟩]
        [] [] [])).projects_df = ⟨["id"], [[("id", "p2")]]⟩ ∧
    redo (AppState.mk ⟨["id"], []⟩ ⟨["segment_id"], []⟩ [] [] [] [] []) =
      AppState.mk ⟨["id"], []⟩ ⟨["segment_id"], []⟩ [] [] [] []
        ["やり直しできる履歴がありません"] :=
  ⟨(C1_redo_semantics.1 _
      (Snapshot.mk ⟨["id"], [[("id", "p2")]]⟩ ⟨["segment_id"], []⟩)
      (by decide)).1,
    C1_redo_semantics.2 _ rfl⟩

/-- C1 counterexample: after a `redo()` with two queued redo snapshots
the redo stack still holds one snapshot, whereas the claimed sequence
(`pushHistory` having emptied the redo stack after the pop) leaves it
with none. -/
theorem C1_redo_counterexample :
    (redo (AppState.mk ⟨["id"], []⟩ ⟨["segment_id"], []⟩ []
        [Snapshot.mk ⟨["id"], [[("id", "p1")]]⟩ ⟨["segment_id"], []⟩,
         Snapshot.mk ⟨["id"], [[("id", "p2")]]⟩ ⟨["segment_id"], []⟩]
        [] [] [])).future ≠ [] := by
  decide

/-- C3 (amended): every direct mutation invoked with `push = true` (the
default) clears the redo stack; in particular after an `undo()` followed
by such a mutation, `redo()` reports "nothing to redo" and is a no-op.
A mutation invoked with `push = false` leaves the redo stack unchanged. -/
theorem C3_direct_mutation_clears_redo :
    (∀ (pid : String) (u : List (String × String)) (s : AppState),
      (update_project pid u true s).future = []) ∧
    (∀ (sid : String) (u : List (String × String)) (s : AppState),
      (update_segment sid u true s).future = []) ∧
    (∀ (p q : DataFrame) (s : AppState), (replace_data p q true s).future = []) ∧
    (∀ (sid : String) (u : List (String × String)) (s : AppState),
      redo (update_segment sid u true (undo s)) =
        { update_segment sid u true (undo s) with
          warnings := (update_segment sid u true (undo s)).warnings ++
            ["やり直しできる履歴がありません"] }) ∧
    (∀ (sid : String) (u : List (String × String)) (s : AppState),
      (update_segment sid u false s).future = s.future) :=
  ⟨fun _ _ _ => rfl, fun _ _ _ => rfl, fun _ _ _ => rfl,
    fun _ _ _ => redo_empty _ rfl, fun _ _ _ => rfl⟩

/-- C3 counterexample: a direct `update_segment` invoked with
`push = false` (as the segment editor does after its own explicit
`push_history()`) leaves a non-empty redo stack intact, so not every
direct mutation clears the redo stack. -/
theorem C3_counterexample :
    (update_segment "s1" [] false
      (AppState.mk ⟨["id"], []⟩ ⟨["segment_id"], []⟩ []
        [Snapshot.mk ⟨["id"], []⟩ ⟨["segment_id"], []⟩] [] [] [])).future ≠ [] := by
  decide

/-- C6 (amended): a history snapshot contains copies of the projects and
segments frames only — two states agreeing on the two frames produce
identical snapshots, whatever their selectedProjects sets. -/
theorem C6_snapshot_contains_frames_only (s1 s2 : AppState)
    (h1 : s1.projects_df = s2.projects_df)
    (h2 : s1.segments_df = s2.segments_df) :
    _snapshot s1 = _snapshot s2 := by
  unfold _snapshot
  rw [h1, h2]

/-- C6 witness: two concrete states with equal frames but different
settings and selection snapshot identically. -/
theorem C6_snapshot_contains_frames_only_witness :
    _snapshot (AppState.mk ⟨["id"], []⟩ ⟨["segment_id"], []⟩ [] []
        [("zoom", "月")] [] []) =
      _snapshot (AppState.mk ⟨["id"], []⟩ ⟨["segment_id"], []⟩ [] []
        [("zoom", "週")] ["p9"] []) :=
  C6_snapshot_contains_frames_only _ _ rfl rfl

/-- C6 counterexample: two states differing only in selectedProjects
yield equal snapshots, so a snapshot does not include (and cannot
determine) the selectedProjects set, contrary to the claim. -/
theorem C6_counterexample :
    _snapshot (AppState.mk ⟨["id"], []⟩ ⟨["segment_id"], []⟩ [] [] [] ["p1"] []) =
      _snapshot (AppState.mk ⟨["id"], []⟩ ⟨["segment_id"], []⟩ [] [] [] ["p2"] []) ∧
    (AppState.mk (⟨["id"], []⟩ : DataFrame) ⟨["segment_id"], []⟩ [] [] [] ["p1"]
        []).selected_projects ≠
      (AppState.mk (⟨["id"], []⟩ : DataFrame) ⟨["segment_id"], []⟩ [] [] [] ["p2"]
        []).selected_projects := by
  constructor
  · decide
  · decide

theorem lastN_of_le {n : Nat} {l : List α} (h : l.length ≤ n) :
    lastN n l = l := by
  simp [lastN, Nat.sub_eq_zero_of_le h]

theorem lastN_cons {n : Nat} {x : α} {l : List α} (h : n ≤ l.length) :
    lastN n (x :: l) = lastN n l := by
  simp only [lastN, List.length_cons]
  rw [show l.length + 1 - n = (l.length - n) + 1 by omega]
  exact List.drop_succ_cons

theorem getLast?_drop_of_lt (l : List α) (n : Nat) (h : n < l.length) :
    (l.drop n).getLast? = l.getLast? := by
  conv_rhs => rw [← List.take_append_drop n l]
  rw [List.getLast?_append_of_ne_nil]
  intro hc
  have hlen : (l.drop n).length = l.length - n := List.length_drop n l
  rw [hc] at hlen
  simp at hlen
  omega

theorem pushWith_history (t : AppState) (pq : DataFrame × DataFrame) :
    (pushWith t pq).history =
      (if (t.history ++ [Snapshot.mk pq.1 pq.2]).length > MAX_HISTORY
       then (t.history ++ [Snapshot.mk pq.1 pq.2]).tail
       else t.history ++ [Snapshot.mk pq.1 pq.2]) := rfl

/-- Folding `pushHistory` over a list of frame states keeps exactly the
last `MAX_HISTORY` snapshots of everything ever pushed. -/
theorem pushSeq_history_eq :
    ∀ (ds : List (DataFrame × DataFrame)) (s : AppState),
      s.history.length ≤ MAX_HISTORY →
      (pushSeq ds s).history =
        lastN MAX_HISTORY
          (s.history ++ ds.map (fun pq => Snapshot.mk pq.1 pq.2)) := by
  intro ds
  induction ds with
  | nil =>
    intro s h
    rw [show pushSeq [] s = s from rfl]
    simp only [List.map_nil, List.append_nil]
    exact (lastN_of_le h).symm
  | cons pq ds ih =>
    intro s h
    rw [show pushSeq (pq :: ds) s = pushSeq ds (pushWith s pq) from rfl]
    have hlen : (pushWith s pq).history.length ≤ MAX_HISTORY := by
      rw [pushWith_history]
      split
      next hgt =>
        rw [List.length_tail]
        simp only [List.length_append, List.length_singleton] at *
        omega
      next hgt =>
        simp only [List.length_append, List.length_singleton] at hgt ⊢
        omega
    rw [ih _ hlen, pushWith_history]
    split
    next hgt =>
      cases hh : s.history with
      | nil =>
        rw [hh] at hgt
        simp [MAX_HISTORY] at hgt
      | cons y t =>
        rw [hh] at h hgt
        simp only [List.cons_append, List.tail_cons, List.map_cons]
        rw [lastN_cons]
        · congr 1
          simp
        · simp only [List.length_append, List.length_singleton, List.length_nil,
            List.length_cons, List.length_map] at *
          omega
    next hgt =>
      rw [List.append_assoc]
      simp

/-- C4: the undo stack never exceeds `MAX_HISTORY = 20` snapshots —
`pushHistory` appends most-recent-last and evicts index 0 on overflow —
and a run of 25 pushes starting from an empty history keeps exactly the
last 20 snapshots: the oldest 5 are discarded and the most recent one is
preserved at the top. -/
theorem C4_history_bounded :
    (∀ s : AppState, s.history.length ≤ MAX_HISTORY →
      (push_history s).history.length ≤ MAX_HISTORY) ∧
    (∀ (ds : List (DataFrame × DataFrame)) (s : AppState),
      ds.length = 25 → s.history = [] →
      (pushSeq ds s).history =
        (ds.map (fun pq => Snapshot.mk pq.1 pq.2)).drop 5 ∧
      (pushSeq ds s).history.length = 20 ∧
      (pushSeq ds s).history.getLast? =
        (ds.map (fun pq => Snapshot.mk pq.1 pq.2)).getLast?) := by
  constructor
  · intro s h
    unfold push_history
    dsimp only
    split
    next hgt =>
      rw [List.length_tail]
      simp only [List.length_append, List.length_singleton]
      omega
    next hgt =>
      simp only [List.length_append, List.length_singleton] at hgt ⊢
      omega
  · intro ds s h25 hemp
    have hmap : (ds.map (fun pq => Snapshot.mk pq.1 pq.2)).length = 25 := by
      rw [List.length_map, h25]
    have hh := pushSeq_history_eq ds s (by rw [hemp]; simp [MAX_HISTORY])
    rw [hemp, List.nil_append] at hh
    have hdrop : (pushSeq ds s).history =
        (ds.map (fun pq => Snapshot.mk pq.1 pq.2)).drop 5 := by
      rw [hh]
      unfold lastN MAX_HISTORY
      rw [hmap]
    refine ⟨hdrop, ?_, ?_⟩
    · rw [hdrop, List.length_drop, hmap]
    · rw [hdrop]
      exact getLast?_drop_of_lt _ 5 (by omega)

/-- C4 witness: 25 concrete pushes from an empty history retain the last
20 snapshots. -/
theorem C4_history_bounded_witness :
    ((AppState.mk ⟨["id"], []⟩ ⟨["segment_id"], []⟩ [] [] [] [] []).history.length ≤
        MAX_HISTORY ∧
      (push_history (AppState.mk ⟨["id"], []⟩ ⟨["segment_id"], []⟩ [] [] [] []
        [])).history.length ≤ MAX_HISTORY) ∧
    ((List.replicate 25
        ((⟨["id"], []⟩ : DataFrame), (⟨["segment_id"], []⟩ : DataFrame))).length = 25 ∧
      (pushSeq
        (List.replicate 25
          ((⟨["id"], []⟩ : DataFrame), (⟨["segment_id"], []⟩ : DataFrame)))
        (AppState.mk ⟨["id"], []⟩ ⟨["segment_id"], []⟩ [] [] [] [] [])).history =
        ((List.replicate 25
          ((⟨["id"], []⟩ : DataFrame), (⟨["segment_id"], []⟩ : DataFrame))).map
            (fun pq => Snapshot.mk pq.1 pq.2)).drop 5) :=
  ⟨⟨by decide, C4_history_bounded.1 _ (by decide)⟩,
    ⟨by decide, (C4_history_bounded.2 _ _ (by decide) rfl).1⟩⟩

/-- C7: for a validated segment range (`segStart ≤ segEnd`) and any view
window, `clip_to_range` returns `none` exactly when `segEnd < viewStart`
or `segStart > viewEnd`; otherwise it returns the intersection
`(max(segStart, viewStart), min(segEnd, viewEnd))`, which is a non-empty
interval contained in both the segment and the view interval. -/
theorem C7_clip_to_range_correct (s e vs ve : Date) (h : dateLe s e)
    (hw : dateLe vs ve) :
    (clip_to_range s e vs ve = .ok none ↔ (dateLt e vs ∨ dateLt ve s)) ∧
    (¬ (dateLt e vs ∨ dateLt ve s) →
      clip_to_range s e vs ve = .ok (some (dateMax s vs, dateMin e ve)) ∧
      dateLe s (dateMax s vs) ∧ dateLe vs (dateMax s vs) ∧
      dateLe (dateMax s vs) (dateMin e ve) ∧
      dateLe (dateMin e ve) e ∧ dateLe (dateMin e ve) ve) := by
  have hv : validate_range s e = .ok (s, e) := by
    unfold validate_range
    rw [if_neg (not_dateLt_iff.mpr h)]
  unfold clip_to_range
  rw [hv]
  dsimp only
  constructor
  · constructor
    · intro hok
      by_contra hno
      rw [if_neg hno] at hok
      simp at hok
    · intro hd
      rw [if_pos hd]
  · intro hno
    rw [if_neg hno]
    have hvse : dateLe vs e := not_dateLt_iff.mp (fun hc => hno (Or.inl hc))
    have hsve : dateLe s ve := not_dateLt_iff.mp (fun hc => hno (Or.inr hc))
    exact ⟨rfl, dateLe_max_left s vs, dateLe_max_right s vs,
      dateLe_min (dateMax_le h hvse) (dateMax_le hsve hw),
      dateMin_le_left e ve, dateMin_le_right e ve⟩

/-- C7 witness: a concrete overlapping segment/view pair is clipped to
the concrete intersection. -/
theorem C7_clip_to_range_witness :
    dateLe ⟨2025, 1, 10⟩ ⟨2025, 2, 5⟩ ∧ dateLe ⟨2025, 1, 20⟩ ⟨2025, 3, 1⟩ ∧
    clip_to_range ⟨2025, 1, 10⟩ ⟨2025, 2, 5⟩ ⟨2025, 1, 20⟩ ⟨2025, 3, 1⟩ =
      .ok (some (dateMax ⟨2025, 1, 10⟩ ⟨2025, 1, 20⟩,
        dateMin ⟨2025, 2, 5⟩ ⟨2025, 3, 1⟩)) :=
  ⟨by decide, by decide,
    ((C7_clip_to_range_correct ⟨2025, 1, 10⟩ ⟨2025, 2, 5⟩ ⟨2025, 1, 20⟩
        ⟨2025, 3, 1⟩ (by decide) (by decide)).2 (by decide)).1⟩

/-- C5 (amended): `make_month_labels` yields exactly one label per month
touching the window, with text `"{year}年{month}月"`, positioned at the
temporal midpoint of the **full** month span `[month_start, month_end]`
— not at the midpoint of the window-truncated span. -/
theorem C5_month_labels :
    (∀ s e : Date, make_month_labels s e = monthLabelsSpecFull s e) ∧
    (∀ s e : Date, (make_month_labels s e).length = (iter_months s e).length) ∧
    (∀ s e : Date, ∀ pl ∈ make_month_labels s e,
      pl.2 = labelText pl.1.y pl.1.m) := by
  refine ⟨?_, ?_, ?_⟩
  · intro s e
    rfl
  · intro s e
    exact List.length_map _ _
  · intro s e pl hpl
    simp only [make_month_labels, List.mem_map] at hpl
    obtain ⟨ym, hmem, rfl⟩ := hpl
    rfl

/-- C5 counterexample: on the window 2025-01-20 .. 2025-02-10 the code
places the January label at day 16 (midpoint of the full month, 32 half
days), not at day 25.5 (midpoint of the truncated span
Jan 20 .. Jan 31, 51 half days) as the claim requires. -/
theorem C5_counterexample :
    dateLe ⟨2025, 1, 20⟩ ⟨2025, 2, 10⟩ ∧
    make_month_labels ⟨2025, 1, 20⟩ ⟨2025, 2, 10⟩ ≠
      monthLabelsSpecTrunc ⟨2025, 1, 20⟩ ⟨2025, 2, 10⟩ := by
  constructor
  · decide
  · decide

theorem applyUpdatesMasked_nil (df : DataFrame) (mask : List Bool) :
    applyUpdatesMasked df mask [] = df := rfl

theorem applyUpdatesMasked_cons (df : DataFrame) (mask : List Bool)
    (kv : String × String) (rest : List (String × String)) :
    applyUpdatesMasked df mask (kv :: rest) =
      applyUpdatesMasked
        (if df.columns.contains kv.1 then
          { df with
            rows := ((df.rows.zip mask).map
              (fun rb => if rb.2 then setCell rb.1 kv.1 kv.2 else rb.1)) }
         else df) mask rest := rfl

theorem applyUpdatesMasked_columns :
    ∀ (updates : List (String × String)) (df : DataFrame) (mask : List Bool),
      (applyUpdatesMasked df mask updates).columns = df.columns := by
  intro updates
  induction updates with
  | nil => intro df mask; rfl
  | cons kv rest ih =>
    intro df mask
    rw [applyUpdatesMasked_cons, ih]
    split <;> rfl

/-- Updates whose key is not a column of the frame are skipped: the loop
behaves as if they were filtered out beforehand. -/
theorem applyUpdatesMasked_filter :
    ∀ (updates : List (String × String)) (df : DataFrame) (mask : List Bool),
      applyUpdatesMasked df mask updates =
        applyUpdatesMasked df mask
          (updates.filter (fun kv => df.columns.contains kv.1)) := by
  intro updates
  induction updates with
  | nil => intro df mask; rfl
  | cons kv rest ih =>
    intro df mask
    rw [applyUpdatesMasked_cons]
    by_cases hc : df.columns.contains kv.1 = true
    · rw [if_pos hc, List.filter_cons, if_pos hc, applyUpdatesMasked_cons,
        if_pos hc]
      exact ih _ mask
    · rw [if_neg hc, List.filter_cons,
        if_neg (by simpa using hc)]
      exact ih df mask

theorem zipMap_mask_false {f : List (String × String) → List (String × String)} :
    ∀ (rows : List (List (String × String))) (mask : List Bool),
      mask.length = rows.length → (∀ b ∈ mask, b = false) →
      (rows.zip mask).map (fun rb => if rb.2 then f rb.1 else rb.1) = rows := by
  intro rows
  induction rows with
  | nil => intro mask _ _; simp
  | cons r rs ih =>
    intro mask hlen hfalse
    cases mask with
    | nil => simp at hlen
    | cons b bs =>
      have hb : b = false := hfalse b (by simp)
      subst hb
      simp only [List.zip_cons_cons, List.map_cons, if_neg Bool.false_ne_true]
      rw [ih bs (by simpa using hlen) (fun x hx => hfalse x (by simp [hx]))]

/-- With an all-false mask (no row matches the id) the update loop
leaves the frame untouched. -/
theorem applyUpdatesMasked_mask_false :
    ∀ (updates : List (String × String)) (df : DataFrame) (mask : List Bool),
      mask.length = df.rows.length → (∀ b ∈ mask, b = false) →
      applyUpdatesMasked df mask updates = df := by
  intro updates
  induction updates with
  | nil => intro df mask _ _; rfl
  | cons kv rest ih =>
    intro df mask hlen hfalse
    rw [applyUpdatesMasked_cons]
    have hz : (df.rows.zip mask).map
        (fun rb => if rb.2 then setCell rb.1 kv.1 kv.2 else rb.1) = df.rows :=
      zipMap_mask_false df.rows mask hlen hfalse
    split
    · rw [hz]
      exact ih df mask hlen hfalse
    · exact ih df mask hlen hfalse

theorem getCell_setCell_ne (r : List (String × String)) {k k' : String}
    (v : String) (h : k' ≠ k) :
    getCell (setCell r k' v) k = getCell r k := by
  unfold getCell setCell
  rw [List.find?_map]
  have hp : ((fun kv => kv.1 == k) ∘ fun kv =>
      if kv.1 == k' then (kv.1, v) else kv) = (fun kv => kv.1 == k) := by
    funext kv
    simp only [Function.comp]
    split <;> rfl
  rw [hp]
  cases hf : r.find? (fun kv => kv.1 == k) with
  | none => rfl
  | some kv =>
    have hk0 := List.find?_some hf
    simp only [beq_iff_eq] at hk0
    have hk' : (kv.1 == k') = false := by
      simp only [beq_eq_false_iff_ne, ne_eq, hk0]
      exact fun hc => h hc.symm
    simp [hk']
    rw [if_neg (fun hc => h ((hk0.symm.trans hc).symm))]

theorem zipMap_getCell (k k' v : String) (h : k' ≠ k) :
    ∀ (rows : List (List (String × String))) (mask : List Bool),
      mask.length = rows.length →
      ((rows.zip mask).map
        (fun rb => if rb.2 then setCell rb.1 k' v else rb.1)).map
          (fun r => getCell r k) =
        rows.map (fun r => getCell r k) := by
  intro rows
  induction rows with
  | nil => intro mask _; simp
  | cons r rs ih =>
    intro mask hlen
    cases mask with
    | nil => simp at hlen
    | cons b bs =>
      simp only [List.zip_cons_cons, List.map_cons]
      rw [ih bs (by simpa using hlen)]
      cases b with
      | false => rfl
      | true =>
        simp only [if_pos]
        rw [getCell_setCell_ne r v h]

/-- Columns not named in the update set keep their value in every row. -/
theorem applyUpdatesMasked_getCell_not_mem :
    ∀ (updates : List (String × String)) (df : DataFrame) (mask : List Bool)
      (k : String),
      mask.length = df.rows.length → ¬ k ∈ updates.map Prod.fst →
      (applyUpdatesMasked df mask updates).rows.map (fun r => getCell r k) =
        df.rows.map (fun r => getCell r k) := by
  intro updates
  induction updates with
  | nil => intro df mask k _ _; rfl
  | cons kv rest ih =>
    intro df mask k hlen hk
    have hk1 : kv.1 ≠ k := by
      intro hc
      exact hk (by simp [List.map_cons, hc])
    have hkrest : ¬ k ∈ rest.map Prod.fst := by
      intro hc
      exact hk (by simp [List.map_cons, hc])
    rw [applyUpdatesMasked_cons]
    split
    · have hlen2 : mask.length =
          ((df.rows.zip mask).map
            (fun rb => if rb.2 then setCell rb.1 kv.1 kv.2 else rb.1)).length := by
        rw [List.length_map, List.length_zip]
        omega
      rw [ih _ mask k hlen2 hkrest]
      exact zipMap_getCell k kv.1 kv.2 hk1 df.rows mask hlen
    · exact ih df mask k hlen hkrest

/-- C9: `update_project` / `update_segment` are total (no exception in
the model): update keys that are not columns of the frame are silently
skipped (the loop equals the loop over the filtered update list, and the
column list is never changed); an id matching no row leaves the frame
unchanged (the update applies to an empty filtered subset); and columns
not named in the update set keep their value in every row. -/
theorem C9_update_semantics :
    (∀ (updates : List (String × String)) (df : DataFrame) (mask : List Bool),
      (applyUpdatesMasked df mask updates).columns = df.columns) ∧
    (∀ (updates : List (String × String)) (df : DataFrame) (mask : List Bool),
      applyUpdatesMasked df mask updates =
        applyUpdatesMasked df mask
          (updates.filter (fun kv => df.columns.contains kv.1))) ∧
    (∀ (pid : String) (updates : List (String × String)) (s : AppState),
      (∀ r ∈ s.projects_df.rows, ¬ getCell r "id" = some pid) →
      (update_project pid updates true s).projects_df = s.projects_df) ∧
    (∀ (sid : String) (updates : List (String × String)) (s : AppState),
      (∀ r ∈ s.segments_df.rows, ¬ getCell r "segment_id" = some sid) →
      (update_segment sid updates true s).segments_df = s.segments_df) ∧
    (∀ (pid k : String) (updates : List (String × String)) (s : AppState),
      ¬ k ∈ updates.map Prod.fst →
      (update_project pid updates true s).projects_df.rows.map
          (fun r => getCell r k) =
        s.projects_df.rows.map (fun r => getCell r k)) ∧
    (∀ (sid k : String) (updates : List (String × String)) (s : AppState),
      ¬ k ∈ updates.map Prod.fst →
      (update_segment sid updates true s).segments_df.rows.map
          (fun r => getCell r k) =
        s.segments_df.rows.map (fun r => getCell r k)) := by
  refine ⟨applyUpdatesMasked_columns, applyUpdatesMasked_filter, ?_, ?_, ?_, ?_⟩
  · intro pid updates s hno
    show applyUpdatesMasked s.projects_df
      (s.projects_df.rows.map (fun r => getCell r "id" == some pid)) updates =
      s.projects_df
    apply applyUpdatesMasked_mask_false
    · rw [List.length_map]
    · intro b hb
      rw [List.mem_map] at hb
      obtain ⟨r, hr, rfl⟩ := hb
      exact beq_eq_false_iff_ne.mpr (hno r hr)
  · intro sid updates s hno
    show applyUpdatesMasked s.segments_df
      (s.segments_df.rows.map (fun r => getCell r "segment_id" == some sid))
      updates = s.segments_df
    apply applyUpdatesMasked_mask_false
    · rw [List.length_map]
    · intro b hb
      rw [List.mem_map] at hb
      obtain ⟨r, hr, rfl⟩ := hb
      exact beq_eq_false_iff_ne.mpr (hno r hr)
  · intro pid k updates s hk
    show (applyUpdatesMasked s.projects_df
      (s.projects_df.rows.map (fun r => getCell r "id" == some pid))
      updates).rows.map (fun r => getCell r k) =
      s.projects_df.rows.map (fun r => getCell r k)
    exact applyUpdatesMasked_getCell_not_mem updates s.projects_df _ k
      (by rw [List.length_map]) hk
  · intro sid k updates s hk
    show (applyUpdatesMasked s.segments_df
      (s.segments_df.rows.map (fun r => getCell r "segment_id" == some sid))
      updates).rows.map (fun r => getCell r k) =
      s.segments_df.rows.map (fun r => getCell r k)
    exact applyUpdatesMasked_getCell_not_mem updates s.segments_df _ k
      (by rw [List.length_map]) hk

/-- C9 witness: concrete no-op updates — an unknown project id, an
unknown segment id, and columns absent from the update set — leave the
concrete frames (or the untouched columns) unchanged. -/
theorem C9_update_semantics_witness :
    (update_project "zz" [("name", "B")] true
      (AppState.mk ⟨["id", "name"], [[("id", "p1"), ("name", "A")]]⟩
        ⟨["segment_id", "label"], [[("segment_id", "s1"), ("label", "X")]]⟩
        [] [] [] [] [])).projects_df =
      ⟨["id", "name"], [[("id", "p1"), ("name", "A")]]⟩ ∧
    (update_segment "zz" [("label", "L")] true
      (AppState.mk ⟨["id", "name"], [[("id", "p1"), ("name", "A")]]⟩
        ⟨["segment_id", "label"], [[("segment_id", "s1"), ("label", "X")]]⟩
        [] [] [] [] [])).segments_df =
      ⟨["segment_id", "label"], [[("segment_id", "s1"), ("label", "X")]]⟩ ∧
    (update_project "p1" [("name", "B")] true
      (AppState.mk ⟨["id", "name"], [[("id", "p1"), ("name", "A")]]⟩
        ⟨["segment_id", "label"], [[("segment_id", "s1"), ("label", "X")]]⟩
        [] [] [] [] [])).projects_df.rows.map (fun r => getCell r "id") =
      [[("id", "p1"), ("name", "A")]].map (fun r => getCell r "id") ∧
    (update_segment "s1" [("label", "L")] true
      (AppState.mk ⟨["id", "name"], [[("id", "p1"), ("name", "A")]]⟩
        ⟨["segment_id", "label"], [[("segment_id", "s1"), ("label", "X")]]⟩
        [] [] [] [] [])).segments_df.rows.map (fun r => getCell r "segment_id") =
      [[("segment_id", "s1"), ("label", "X")]].map
        (fun r => getCell r "segment_id") :=
  ⟨C9_update_semantics.2.2.1 "zz" _ _ (by decide),
    C9_update_semantics.2.2.2.1 "zz" _ _ (by decide),
    C9_update_semantics.2.2.2.2.1 "p1" "id" _ _ (by decide),
    C9_update_semantics.2.2.2.2.2 "s1" "segment_id" _ _ (by decide)⟩

theorem daysInMonth_ge (y m : Nat) : 28 ≤ daysInMonth y m := by
  unfold daysInMonth
  split_ifs <;> omega

theorem dateLe_day_mono {y m d1 d2 : Nat} (h : d1 ≤ d2) :
    dateLe ⟨y, m, d1⟩ ⟨y, m, d2⟩ := by
  unfold dateLe
  dsimp only
  omega

theorem month_succ_lt (k d d' : Nat) :
    dateLt ⟨(idxToMonth k).1, (idxToMonth k).2, d⟩
      ⟨(idxToMonth (k + 1)).1, (idxToMonth (k + 1)).2, d'⟩ := by
  simp only [idxToMonth, dateLt]
  omega

/-- One tick-candidate step preserves strict ascent and the bound by the
candidate itself. -/
theorem tickCand_chain (s e : Date) (dim : Nat) (ym : Nat × Nat)
    (acc : List Date) (day : Nat)
    (h1 : List.Chain' dateLt acc)
    (h2 : ∀ x ∈ acc, dateLe x ⟨ym.1, ym.2, day⟩) :
    List.Chain' dateLt (tickCand s e dim ym acc day) ∧
    ∀ x ∈ tickCand s e dim ym acc day, dateLe x ⟨ym.1, ym.2, day⟩ := by
  unfold tickCand
  split
  · exact ⟨h1, h2⟩
  · dsimp only
    split
    · split
      next hdup => exact ⟨h1, h2⟩
      next hdup =>
        constructor
        · rw [List.chain'_append]
          refine ⟨h1, List.chain'_singleton _, ?_⟩
          intro x hx t ht
          simp only [List.head?_cons, Option.mem_def, Option.some.injEq] at ht
          subst ht
          have hxacc : x ∈ acc := List.mem_of_mem_getLast? hx
          apply dateLt_of_le_of_ne (h2 x hxacc)
          intro heq
          apply hdup
          refine ⟨?_, ?_⟩
          · intro hnil
            rw [hnil] at hx
            simp at hx
          · rw [← heq]
            exact hx
        · intro x hx
          rcases List.mem_append.mp hx with hxe | hxe
          · exact h2 x hxe
          · simp only [List.mem_singleton] at hxe
            subst hxe
            exact dateLe_refl _
    · exact ⟨h1, h2⟩

/-- One month of ticks preserves strict ascent; afterwards everything is
bounded by the month's last day. -/
theorem tickMonth_chain (s e : Date) (acc : List Date) (ym : Nat × Nat)
    (h1 : List.Chain' dateLt acc)
    (h2 : ∀ x ∈ acc, dateLe x ⟨ym.1, ym.2, 6⟩) :
    List.Chain' dateLt (tickMonth s e acc ym) ∧
    ∀ x ∈ tickMonth s e acc ym,
      dateLe x ⟨ym.1, ym.2, daysInMonth ym.1 ym.2⟩ := by
  have hdim := daysInMonth_ge ym.1 ym.2
  unfold tickMonth
  dsimp only
  simp only [List.foldl_cons, List.foldl_nil]
  have s1 := tickCand_chain s e (daysInMonth ym.1 ym.2) ym acc 6 h1 h2
  have s2 := tickCand_chain s e (daysInMonth ym.1 ym.2) ym _ 12 s1.1
    (fun x hx => dateLe_trans (s1.2 x hx) (dateLe_day_mono (by omega)))
  have s3 := tickCand_chain s e (daysInMonth ym.1 ym.2) ym _ 18 s2.1
    (fun x hx => dateLe_trans (s2.2 x hx) (dateLe_day_mono (by omega)))
  have s4 := tickCand_chain s e (daysInMonth ym.1 ym.2) ym _ 24 s3.1
    (fun x hx => dateLe_trans (s3.2 x hx) (dateLe_day_mono (by omega)))
  exact tickCand_chain s e (daysInMonth ym.1 ym.2) ym _
    (daysInMonth ym.1 ym.2) s4.1
    (fun x hx => dateLe_trans (s4.2 x hx) (dateLe_day_mono (by omega)))

/-- Folding months keeps the tick list strictly ascending. -/
theorem monthsFold_chain (s e : Date) :
    ∀ (n k : Nat) (acc : List Date),
      List.Chain' dateLt acc →
      (∀ x ∈ acc, dateLt x ⟨(idxToMonth k).1, (idxToMonth k).2, 6⟩) →
      List.Chain' dateLt ((monthsFrom k n).foldl (tickMonth s e) acc) := by
  intro n
  induction n with
  | zero => intro k acc h1 _; exact h1
  | succ n ih =>
    intro k acc h1 h2
    rw [show monthsFrom k (n + 1) = idxToMonth k :: monthsFrom (k + 1) n from rfl]
    rw [List.foldl_cons]
    have hm := tickMonth_chain s e acc (idxToMonth k) h1
      (fun x hx => dateLe_of_lt (h2 x hx))
    apply ih (k + 1) _ hm.1
    intro x hx
    exact dateLt_of_le_of_lt (hm.2 x hx) (month_succ_lt k _ 6)

theorem tickCand_mem_mono (s e : Date) (dim : Nat) (ym : Nat × Nat)
    (acc : List Date) (day : Nat) {x : Date} (hx : x ∈ acc) :
    x ∈ tickCand s e dim ym acc day := by
  unfold tickCand
  split
  · exact hx
  · dsimp only
    split
    · split
      · exact hx
      · exact List.mem_append_left _ hx
    · exact hx

theorem foldDays_mem_mono (s e : Date) (dim : Nat) (ym : Nat × Nat) :
    ∀ (days : List Nat) (acc : List Date) {x : Date}, x ∈ acc →
      x ∈ days.foldl (tickCand s e dim ym) acc := by
  intro days
  induction days with
  | nil => intro acc x hx; exact hx
  | cons d ds ih =>
    intro acc x hx
    rw [List.foldl_cons]
    exact ih _ (tickCand_mem_mono s e dim ym acc d hx)

theorem tickCand_mem_self (s e : Date) (dim : Nat) (ym : Nat × Nat)
    (acc : List Date) (day : Nat) (hday : ¬ day > dim)
    (hs : dateLe s ⟨ym.1, ym.2, day⟩) (he : dateLe ⟨ym.1, ym.2, day⟩ e) :
    (⟨ym.1, ym.2, day⟩ : Date) ∈ tickCand s e dim ym acc day := by
  unfold tickCand
  rw [if_neg hday]
  dsimp only
  rw [if_pos ⟨hs, he⟩]
  split
  next hdup => exact List.mem_of_mem_getLast? (by rw [hdup.2]; simp)
  next => exact List.mem_append_right _ (by simp)

theorem foldDays_mem (s e : Date) (dim : Nat) (ym : Nat × Nat) :
    ∀ (days : List Nat) (acc : List Date) (day : Nat), day ∈ days →
      ¬ day > dim → dateLe s ⟨ym.1, ym.2, day⟩ → dateLe ⟨ym.1, ym.2, day⟩ e →
      (⟨ym.1, ym.2, day⟩ : Date) ∈ days.foldl (tickCand s e dim ym) acc := by
  intro days
  induction days with
  | nil => intro acc day h; simp at h
  | cons d ds ih =>
    intro acc day hmem hd hs he
    rw [List.foldl_cons]
    rcases List.mem_cons.mp hmem with heq | hmem2
    · subst heq
      exact foldDays_mem_mono s e dim ym ds _
        (tickCand_mem_self s e dim ym acc day hd hs he)
    · exact ih _ day hmem2 hd hs he

theorem tickMonth_mem_mono (s e : Date) (acc : List Date) (ym : Nat × Nat)
    {x : Date} (hx : x ∈ acc) : x ∈ tickMonth s e acc ym := by
  unfold tickMonth
  exact foldDays_mem_mono s e _ ym _ acc hx

theorem tickMonth_mem (s e : Date) (acc : List Date) (ym : Nat × Nat)
    (day : Nat) (hday : day ∈ [6, 12, 18, 24, daysInMonth ym.1 ym.2])
    (hs : dateLe s ⟨ym.1, ym.2, day⟩) (he : dateLe ⟨ym.1, ym.2, day⟩ e) :
    (⟨ym.1, ym.2, day⟩ : Date) ∈ tickMonth s e acc ym := by
  have hdim := daysInMonth_ge ym.1 ym.2
  unfold tickMonth
  dsimp only
  apply foldDays_mem s e _ ym _ acc day hday _ hs he
  simp only [List.mem_cons, List.mem_singleton, List.not_mem_nil, or_false] at hday
  rcases hday with h | h | h | h | h <;> omega

theorem monthsFoldMemMono (s e : Date) :
    ∀ (months : List (Nat × Nat)) (acc : List Date) {x : Date}, x ∈ acc →
      x ∈ months.foldl (tickMonth s e) acc := by
  intro months
  induction months with
  | nil => intro acc x hx; exact hx
  | cons m ms ih =>
    intro acc x hx
    rw [List.foldl_cons]
    exact ih _ (tickMonth_mem_mono s e _ m hx)

theorem monthsFold_mem (s e : Date) :
    ∀ (months : List (Nat × Nat)) (acc : List Date) (ym : Nat × Nat)
      (day : Nat), ym ∈ months →
      day ∈ [6, 12, 18, 24, daysInMonth ym.1 ym.2] →
      dateLe s ⟨ym.1, ym.2, day⟩ → dateLe ⟨ym.1, ym.2, day⟩ e →
      (⟨ym.1, ym.2, day⟩ : Date) ∈ months.foldl (tickMonth s e) acc := by
  intro months
  induction months with
  | nil => intro acc ym day h; simp at h
  | cons m ms ih =>
    intro acc ym day hmem hday hs he
    rw [List.foldl_cons]
    rcases List.mem_cons.mp hmem with heq | hmem2
    · subst heq
      exact monthsFoldMemMono s e ms _
        (tickMonth_mem s e acc ym day hday hs he)
    · exact ih _ ym day hmem2 hday hs he

/-- C8: `make_tickvals` is strictly ascending on every window; it
contains, for each month touching the window, the ticks on days
6/12/18/24/last that fall inside `[start, end]`; and on the window
2025-01-01 .. 2025-03-31 it is exactly the 15 expected ticks — starting
with January 6 then January 12, February ending at day 28, and ending
with March 31. -/
theorem C8_tick_positions :
    (∀ s e : Date, List.Chain' dateLt (make_tickvals s e)) ∧
    (∀ (s e : Date) (ym : Nat × Nat) (day : Nat),
      ym ∈ iter_months s e →
      day ∈ [6, 12, 18, 24, daysInMonth ym.1 ym.2] →
      dateLe s ⟨ym.1, ym.2, day⟩ → dateLe ⟨ym.1, ym.2, day⟩ e →
      (⟨ym.1, ym.2, day⟩ : Date) ∈ make_tickvals s e) ∧
    make_tickvals ⟨2025, 1, 1⟩ ⟨2025, 3, 31⟩ =
      [⟨2025, 1, 6⟩, ⟨2025, 1, 12⟩, ⟨2025, 1, 18⟩, ⟨2025, 1, 24⟩,
        ⟨2025, 1, 31⟩, ⟨2025, 2, 6⟩, ⟨2025, 2, 12⟩, ⟨2025, 2, 18⟩,
        ⟨2025, 2, 24⟩, ⟨2025, 2, 28⟩, ⟨2025, 3, 6⟩, ⟨2025, 3, 12⟩,
        ⟨2025, 3, 18⟩, ⟨2025, 3, 24⟩, ⟨2025, 3, 31⟩] := by
  refine ⟨?_, ?_, by decide⟩
  · intro s e
    unfold make_tickvals iter_months
    exact monthsFold_chain s e _ (monthIdx s) [] List.chain'_nil
      (fun x hx => by simp at hx)
  · intro s e ym day hmem hday hs he
    unfold make_tickvals
    exact monthsFold_mem s e (iter_months s e) [] ym day hmem hday hs he

/-- C8 witness: the February 12 tick of the example window is a member
of the produced tick list. -/
theorem C8_tick_positions_witness :
    (⟨2025, 2, 12⟩ : Date) ∈ make_tickvals ⟨2025, 1, 1⟩ ⟨2025, 3, 31⟩ :=
  C8_tick_positions.2.1 ⟨2025, 1, 1⟩ ⟨2025, 3, 31⟩ (2025, 2) 12
    (by decide) (by decide) (by decide) (by decide)

end Gantt
